import Mathlib

/-!
Verification development for the memOS core components:
the fixed-window rate limiter (`src/ui/app/services/rateLimit.ts`),
the session store (`SessionManager`), the streaming turn parser and
conversation orchestrator (`MemeService.generateConversation`), and the
image-analysis route (`POST`).  Each TypeScript function is shallowly
embedded as an executable Lean definition; timestamps are naturals
(milliseconds), JS strings are `List Char`, and raw response bytes are
naturals below 256.
-/

set_option autoImplicit false

namespace MemOS

/-! ## Rate limiter (src/ui/app/services/rateLimit.ts) -/

/-- One entry of the rate-limit store: `{ count, timestamp }`. -/
structure RateEntry where
  count : Nat
  timestamp : Nat
deriving DecidableEq

/-- The JS object `store` maps ip keys to entries; absent keys are `none`. -/
def RateStore : Type := String → Option RateEntry

/-- `windowMs = 60 * 1000` from the source. -/
def windowMs : Nat := 60 * 1000

/-- `limit = 10` from the source. -/
def rateCap : Nat := 10

/-- The empty store. -/
def emptyRateStore : RateStore := fun _ => none

/-- Embedding of `rateLimit(ip)` at time `now`:
first every entry older than `windowMs` is deleted (`now - ts > windowMs`,
a global pass over all keys), then the entry for `ip` is created with
count 1, reset to count 1 if its window has elapsed, or incremented;
the returned flag is `store[ip].count <= limit`. -/
def rateLimit (store : RateStore) (ip : String) (now : Nat) : Bool × RateStore :=
  let cleaned : RateStore := fun k =>
    match store k with
    | some e => if now - e.timestamp > windowMs then none else some e
    | none => none
  let updated : RateStore :=
    match cleaned ip with
    | none => fun k => if k = ip then some ⟨1, now⟩ else cleaned k
    | some e =>
      if now - e.timestamp > windowMs then
        fun k => if k = ip then some ⟨1, now⟩ else cleaned k
      else
        fun k => if k = ip then some ⟨e.count + 1, e.timestamp⟩ else cleaned k
  let success : Bool :=
    match updated ip with
    | some e => decide (e.count ≤ rateCap)
    | none => false
  (success, updated)

/-- A store holding a single key. -/
def singleStore (ip : String) (e : RateEntry) : RateStore :=
  fun k => if k = ip then some e else none

/-- Iterating `rateLimit` for one key over a list of call times, collecting
the returned flags in order together with the final store. -/
def rateLimitRun (store : RateStore) (ip : String) : List Nat → List Bool × RateStore
  | [] => ([], store)
  | t :: ts =>
    let r := rateLimit store ip t
    let rest := rateLimitRun r.2 ip ts
    (r.1 :: rest.1, rest.2)

/-- Expected flags for `n` in-window calls arriving at a count of `c`. -/
def expectedFlags (c : Nat) : Nat → List Bool
  | 0 => []
  | n + 1 => decide (c + 1 ≤ rateCap) :: expectedFlags (c + 1) n

/-- Concrete store for the C9 witness: key `a` at `⟨2, 0⟩`, key `b` at `⟨3, 1⟩`. -/
def c9Store : RateStore :=
  fun k => if k = "a" then some ⟨2, 0⟩ else if k = "b" then some ⟨3, 1⟩ else none

/-! ## Session store (`SessionManager`, src/unnamed/part_002) -/

/-- `UserSession`: the two `any`-typed optional fields are abstracted by a
type parameter. -/
structure UserSession (α : Type) where
  id : String
  lastActive : Nat
  memeService : Option α := none
  analysis : Option α := none
deriving DecidableEq

/-- `sessions : Map<string, UserSession>`, embedded as an association list
(`Map` iteration order is insertion order; keys are unique by construction). -/
def SessionStore (α : Type) : Type := List (String × UserSession α)

/-- `Map.get`: first binding for the key, if any. -/
def storeGet? {α : Type} : SessionStore α → String → Option (UserSession α)
  | [], _ => none
  | (k, v) :: t, i => if k = i then some v else storeGet? t i

/-- `Map.set`: replace the existing binding, else append. -/
def storeSet {α : Type} : SessionStore α → String → UserSession α → SessionStore α
  | [], i, s => [(i, s)]
  | (k, v) :: t, i, s => if k = i then (i, s) :: t else (k, v) :: storeSet t i s

/-- Embedding of `getSession(sessionId)` at time `now`: returns the stored
session unchanged when present; otherwise creates
`{ id: sessionId, lastActive: now }`, stores it and returns it. -/
def getSession {α : Type} (m : SessionStore α) (sessionId : String) (now : Nat) :
    UserSession α × SessionStore α :=
  match storeGet? m sessionId with
  | some s => (s, m)
  | none => (⟨sessionId, now, none, none⟩, storeSet m sessionId ⟨sessionId, now, none, none⟩)

/-- `Partial<UserSession>`: `some x` means the field is present in the patch. -/
structure SessionPatch (α : Type) where
  id : Option String := none
  lastActive : Option Nat := none
  memeService : Option (Option α) := none
  analysis : Option (Option α) := none

/-- The object `{ ...session, ...data, lastActive: Date.now() }`: each field
present in the patch wins over the stored one, and `lastActive` is set to
`now` last, overriding both. -/
def applyPatch {α : Type} (s : UserSession α) (p : SessionPatch α) (now : Nat) : UserSession α :=
  { id := p.id.getD s.id
    lastActive := now
    memeService := p.memeService.getD s.memeService
    analysis := p.analysis.getD s.analysis }

/-- Embedding of `updateSession(sessionId, data)` at time `now`: a silent
no-op when the id is absent, otherwise the shallow merge is stored back. -/
def updateSession {α : Type} (m : SessionStore α) (sessionId : String) (p : SessionPatch α)
    (now : Nat) : SessionStore α :=
  match storeGet? m sessionId with
  | none => m
  | some s => storeSet m sessionId (applyPatch s p now)

/-- Concrete store for the C7 counterexample: one session stored at time 5. -/
def c7Store : SessionStore Unit := [("s", ⟨"s", 5, none, none⟩)]

/-! ## Streaming turn parser (`MemeService.generateConversation`, src/unnamed/part_001)

JS strings are embedded as `List Char`. -/

/-- JSON whitespace (also the whitespace the emitted messages are trimmed of:
the source only ever trims plain spaces, which this set contains). -/
def jsWhitespace (c : Char) : Bool :=
  c = ' ' || c = '\t' || c = '\n' || c = '\r'

/-- `String.prototype.trim`: strip whitespace from both ends. -/
def trimChars (l : List Char) : List Char :=
  ((l.dropWhile jsWhitespace).reverse.dropWhile jsWhitespace).reverse

/-- `String.prototype.startsWith`. -/
def listStartsWith : List Char → List Char → Bool
  | [], _ => true
  | _ :: _, [] => false
  | p :: ps, c :: cs => p = c && listStartsWith ps cs

/-- Value of a hexadecimal digit, if any. -/
def hexVal? (c : Char) : Option Nat :=
  if '0' ≤ c ∧ c ≤ '9' then some (c.toNat - 48)
  else if 'a' ≤ c ∧ c ≤ 'f' then some (c.toNat - 87)
  else if 'A' ≤ c ∧ c ≤ 'F' then some (c.toNat - 55)
  else none

/-- JSON single-character escapes. -/
def escChar? (c : Char) : Option Char :=
  if c = '"' then some '"'
  else if c = '\\' then some '\\'
  else if c = '/' then some '/'
  else if c = 'b' then some (Char.ofNat 8)
  else if c = 'f' then some (Char.ofNat 12)
  else if c = 'n' then some '\n'
  else if c = 'r' then some '\r'
  else if c = 't' then some '\t'
  else none

/-- Body of a JSON string literal, the opening quote already consumed:
returns the decoded characters and the input past the closing quote. -/
def parseStringLit : List Char → Option (List Char × List Char)
  | [] => none
  | '"' :: rest => some ([], rest)
  | '\\' :: 'u' :: h1 :: h2 :: h3 :: h4 :: rest =>
    match hexVal? h1, hexVal? h2, hexVal? h3, hexVal? h4 with
    | some a, some b, some c, some d =>
      (parseStringLit rest).map (fun p => (Char.ofNat (((a * 16 + b) * 16 + c) * 16 + d) :: p.1, p.2))
    | _, _, _, _ => none
  | '\\' :: e :: rest =>
    match escChar? e with
    | some c => (parseStringLit rest).map (fun p => (c :: p.1, p.2))
    | none => none
  | c :: rest => (parseStringLit rest).map (fun p => (c :: p.1, p.2))

/-- Drop leading JSON whitespace. -/
def skipWs (l : List Char) : List Char := l.dropWhile jsWhitespace

/-- Model of `JSON.parse(text)` followed by reading `.message`, restricted to
the payload shape this stream carries (a one-field object whose `message`
value is a string literal): `some value` when the text parses as
`\x7b "message" : "..." \x7d` up to whitespace, `none` when parsing fails or the
`message` field is absent — both of which the source drops silently. -/
def jsonMessage? (l : List Char) : Option (List Char) :=
  match skipWs l with
  | '{' :: r1 =>
    match skipWs r1 with
    | '"' :: r2 =>
      match parseStringLit r2 with
      | some (key, r3) =>
        match skipWs r3 with
        | ':' :: r4 =>
          match skipWs r4 with
          | '"' :: r5 =>
            match parseStringLit r5 with
            | some (value, r6) =>
              match skipWs r6 with
              | '}' :: r7 =>
                if skipWs r7 = [] ∧ key = "message".data then some value else none
              | _ => none
            | none => none
          | _ => none
        | _ => none
      | none => none
    | _ => none
  | _ => none

/-- One yielded turn. -/
structure Turn where
  speaker : List Char
  message : List Char
  imageUrl : List Char
  isHacky : Bool
deriving DecidableEq

/-- The `yield` expression: `Hacky:`-marked messages become Hacky turns with
the marker (6 characters) stripped and trimmed; anything else is attributed
to the active character, with the first `memeName.length + 1` characters
stripped and trimmed. -/
def mkTurn (memeName imageUrl msg : List Char) : Turn :=
  let isHackyMessage := listStartsWith "Hacky:".data msg
  { speaker := if isHackyMessage then "Hacky".data else memeName
    message := if isHackyMessage then trimChars (msg.drop 6)
               else trimChars (msg.drop (memeName.length + 1))
    imageUrl := if isHackyMessage then "/images/hacky.jpeg".data else imageUrl
    isHacky := isHackyMessage }

/-- Processing of one complete line: lines without the `data: ` prefix are
skipped; for the rest, `line.slice(5)` is parsed, a failed parse or a falsy
(absent or empty) `message` drops the line (the source catches the throw of
`JSON.parse` and merely logs it), and otherwise a turn is yielded. -/
def parseLine (memeName imageUrl line : List Char) : Option Turn :=
  if listStartsWith "data: ".data line then
    match jsonMessage? (line.drop 5) with
    | some msg => if msg = [] then none else some (mkTurn memeName imageUrl msg)
    | none => none
  else none

/-- Prepend a character to the first line of an `extractLines` result,
or to the residue when no complete line was found. -/
def consLine (c : Char) : List (List Char) × List Char → List (List Char) × List Char
  | ([], r) => ([], c :: r)
  | (l :: ls, r) => ((c :: l) :: ls, r)

/-- `buffer.split('\n')` with the last piece popped back into the buffer:
the complete lines (newline-terminated prefixes) and the residue after the
last newline. -/
def extractLines : List Char → List (List Char) × List Char
  | [] => ([], [])
  | c :: cs =>
    if c = '\n' then ([] :: (extractLines cs).1, (extractLines cs).2)
    else consLine c (extractLines cs)

/-- One iteration of the read loop: append the decoded chunk to the buffer,
split off the complete lines, emit their turns. -/
def feedChunk (memeName imageUrl : List Char) (st : List Char × List Turn)
    (chunk : List Char) : List Char × List Turn :=
  let p := extractLines (st.1 ++ chunk)
  (p.2, st.2 ++ p.1.filterMap (parseLine memeName imageUrl))

/-- The whole read loop over a finite stream of already-decoded chunks;
on `done` the remaining buffer is discarded and the emitted turns stand. -/
def runStream (memeName imageUrl : List Char) (chunks : List (List Char)) : List Turn :=
  (chunks.foldl (feedChunk memeName imageUrl) ([], [])).2

/-! ## Byte level: `decoder.decode(value)` without `stream: true`

Each chunk is decoded independently, so a multibyte sequence split across
chunks is malformed on both sides. -/

/-- UTF-8 continuation byte. -/
def isCont (b : Nat) : Bool := 0x80 ≤ b && b ≤ 0xBF

/-- U+FFFD, the replacement character. -/
def replChar : Char := Char.ofNat 0xFFFD

/-- Model of `TextDecoder.decode` (UTF-8, non-fatal, no `stream` option) on
the fragment this development exercises: ASCII bytes and two-byte sequences
(lead `0xC2`–`0xDF` plus one continuation) decode to their code points;
every other byte — a lone lead, a stray continuation, or a lead of a longer
sequence, which no input here contains — yields one replacement character,
as each `decode` call treats its chunk as complete. -/
def utf8Decode : List Nat → List Char
  | [] => []
  | [b] => if b < 0x80 then [Char.ofNat b] else [replChar]
  | b :: b2 :: bs =>
    if b < 0x80 then Char.ofNat b :: utf8Decode (b2 :: bs)
    else if 0xC2 ≤ b ∧ b ≤ 0xDF then
      if isCont b2 then Char.ofNat ((b - 0xC0) * 64 + (b2 - 0x80)) :: utf8Decode bs
      else replChar :: utf8Decode (b2 :: bs)
    else replChar :: utf8Decode (b2 :: bs)

/-- Well-formedness of a byte chunk within the modelled fragment: a
concatenation of ASCII bytes and complete two-byte sequences, so that
decoding it is independent of what follows. -/
def wellFormedUtf8 : List Nat → Bool
  | [] => true
  | [b] => decide (b < 0x80)
  | b :: b2 :: bs =>
    if b < 0x80 then wellFormedUtf8 (b2 :: bs)
    else if 0xC2 ≤ b ∧ b ≤ 0xDF then isCont b2 && wellFormedUtf8 bs
    else false

/-- The read loop on raw byte chunks: each chunk is decoded on its own and
appended to the text buffer, exactly as the source does. -/
def runStreamBytes (memeName imageUrl : List Char) (chunks : List (List Nat)) : List Turn :=
  runStream memeName imageUrl (chunks.map utf8Decode)

/-- ASCII bytes of a string. -/
def asciiBytes (s : String) : List Nat := s.data.map Char.toNat

/-- Bytes of the line `data: \x7b"message":"Hacky: é"\x7d` plus newline, é being
the two-byte sequence `0xC3 0xA9`. -/
def c2LineBytes : List Nat :=
  asciiBytes "data: \x7b\"message\":\"Hacky: " ++ [0xC3, 0xA9] ++ asciiBytes "\"\x7d\n"

/-- The é line as a single chunk. -/
def c2ChunksWhole : List (List Nat) := [c2LineBytes]

/-- The é line split between the two bytes of é. -/
def c2ChunksSplit : List (List Nat) :=
  [asciiBytes "data: \x7b\"message\":\"Hacky: " ++ [0xC3], [0xA9] ++ asciiBytes "\"\x7d\n"]

/-! ## Conversation orchestrator (`MemeService`, src/unnamed/part_001) -/

/-- The parsed character analysis held by the service. -/
structure CharacterAnalysis where
  name : List Char
  appearanceTraits : List (List Char)
  possibleJokes : List (List Char)
  personality : List Char

/-- The private state of a `MemeService` instance. -/
structure MemeServiceState where
  descripcionPersonaje : Option CharacterAnalysis := none
  descripcionTexto : List Char := []
  memeName : List Char := []
  imageUrl : List Char := []

/-- Embedding of `generateConversation`: when the analysis (or its text
form) is absent the generator throws `Must analyze image first` before any
`fetch`; otherwise exactly one streaming request is issued and its chunks
are fed through the parser.  The second component counts provider calls. -/
def generateConversation (st : MemeServiceState) (chunks : List (List Nat)) :
    Except (List Char) (List Turn) × Nat :=
  if st.descripcionPersonaje.isNone || st.descripcionTexto = [] then
    (Except.error "Must analyze image first".data, 0)
  else
    (Except.ok (runStreamBytes st.memeName st.imageUrl chunks), 1)

/-! ## Image-analysis route (`POST`, src/unnamed/part_000) -/

/-- The distinct responses of the route. -/
inductive PostResponse (α : Type) where
  | missingSessionId
  | invalidSession
  | missingFileOrName
  | providerFailure
  | analyzed (analysis : α)
deriving DecidableEq

/-- Embedding of the route handler: `sessionId` is `none` when the form
field is absent (`formData.get` returns null) and its emptiness models JS
falsiness; the provider outcome is a parameter (`none` = the call threw or
returned no content, caught as a 500).  The check `if (!session)` tests the
value returned by `getSession` for null — `getSession` returns an object,
embedded as `some`, so the check inspects `Option.isNone (some session)`. -/
def postAnalyze {α : Type} (m : SessionStore α) (sessionId : Option String) (hasFile : Bool)
    (memeName : String) (providerAnalysis : Option α) (now : Nat) :
    PostResponse α × SessionStore α :=
  match sessionId with
  | none => (.missingSessionId, m)
  | some sid =>
    if sid = "" then (.missingSessionId, m)
    else
      let r := getSession m sid now
      let sessionValue : Option (UserSession α) := some r.1
      if sessionValue.isNone then (.invalidSession, r.2)
      else if !hasFile || memeName = "" then (.missingFileOrName, r.2)
      else
        match providerAnalysis with
        | none => (.providerFailure, r.2)
        | some a =>
          (.analyzed a, updateSession r.2 sid ⟨none, none, none, some (some a)⟩ now)

/-! ## Lemmas: rate limiter -/

theorem rateLimit_single_in (ip : String) (c t0 now : Nat) (h : now ≤ t0 + windowMs) :
    rateLimit (singleStore ip ⟨c, t0⟩) ip now
      = (decide (c + 1 ≤ rateCap), singleStore ip ⟨c + 1, t0⟩) := by
  have hnot : ¬ (now - t0 > windowMs) := by omega
  have key : ∀ k, (rateLimit (singleStore ip ⟨c, t0⟩) ip now).2 k
      = singleStore ip ⟨c + 1, t0⟩ k := by
    intro k
    by_cases hk : k = ip <;> simp [rateLimit, singleStore, hk, hnot]
  have hsucc : (rateLimit (singleStore ip ⟨c, t0⟩) ip now).1 = decide (c + 1 ≤ rateCap) := by
    simp [rateLimit, singleStore, hnot]
  exact Prod.ext_iff.mpr ⟨hsucc, funext key⟩

theorem rateLimit_empty (ip : String) (now : Nat) :
    rateLimit emptyRateStore ip now = (true, singleStore ip ⟨1, now⟩) := by
  have key : ∀ k, (rateLimit emptyRateStore ip now).2 k = singleStore ip ⟨1, now⟩ k := by
    intro k
    by_cases hk : k = ip <;> simp [rateLimit, singleStore, emptyRateStore, hk]
  have hsucc : (rateLimit emptyRateStore ip now).1 = true := by
    simp [rateLimit, emptyRateStore, rateCap]
  exact Prod.ext_iff.mpr ⟨hsucc, funext key⟩

theorem rateLimit_single_reset (ip : String) (c t0 now : Nat) (h : now > t0 + windowMs) :
    rateLimit (singleStore ip ⟨c, t0⟩) ip now = (true, singleStore ip ⟨1, now⟩) := by
  have hgt : now - t0 > windowMs := by omega
  have key : ∀ k, (rateLimit (singleStore ip ⟨c, t0⟩) ip now).2 k
      = singleStore ip ⟨1, now⟩ k := by
    intro k
    by_cases hk : k = ip <;> simp [rateLimit, singleStore, hk, hgt]
  have hsucc : (rateLimit (singleStore ip ⟨c, t0⟩) ip now).1 = true := by
    simp [rateLimit, singleStore, hgt, rateCap]
  exact Prod.ext_iff.mpr ⟨hsucc, funext key⟩

theorem rateLimitRun_single_in (ip : String) (t0 : Nat) :
    ∀ (ts : List Nat) (c : Nat), (∀ t ∈ ts, t ≤ t0 + windowMs) →
      rateLimitRun (singleStore ip ⟨c, t0⟩) ip ts
        = (expectedFlags c ts.length, singleStore ip ⟨c + ts.length, t0⟩)
  | [], c, _ => by simp [rateLimitRun, expectedFlags]
  | t :: ts, c, h => by
    have h1 : t ≤ t0 + windowMs := h t (List.mem_cons_self t ts)
    have ih := rateLimitRun_single_in ip t0 ts (c + 1)
      (fun x hx => h x (List.mem_cons_of_mem t hx))
    have harith : c + 1 + ts.length = c + (ts.length + 1) := by omega
    simp [rateLimitRun, rateLimit_single_in ip c t0 t h1, ih, expectedFlags, harith]

/-! ## Lemmas: session store -/

theorem storeGet?_storeSet_self {α : Type} (m : SessionStore α) (i : String) (s : UserSession α) :
    storeGet? (storeSet m i s) i = some s := by
  induction m with
  | nil => simp [storeSet, storeGet?]
  | cons kv t ih =>
    obtain ⟨k, v⟩ := kv
    by_cases hk : k = i <;> simp [storeSet, storeGet?, hk, ih]

theorem storeGet?_storeSet_other {α : Type} (m : SessionStore α) (i j : String)
    (s : UserSession α) (h : j ≠ i) : storeGet? (storeSet m i s) j = storeGet? m j := by
  induction m with
  | nil => simp [storeSet, storeGet?, Ne.symm h]
  | cons kv t ih =>
    obtain ⟨k, v⟩ := kv
    by_cases hk : k = i
    · subst hk
      have hkj : k ≠ j := fun hh => h hh.symm
      simp [storeSet, storeGet?, hkj]
    · simp [storeSet, storeGet?, hk, ih]

theorem length_storeSet_of_get {α : Type} (m : SessionStore α) (i : String)
    (s' s : UserSession α) (h : storeGet? m i = some s') :
    (storeSet m i s).length = m.length := by
  induction m with
  | nil => simp [storeGet?] at h
  | cons kv t ih =>
    obtain ⟨k, v⟩ := kv
    by_cases hk : k = i
    · simp [storeSet, hk]
    · simp [storeGet?, hk] at h
      simp [storeSet, hk, ih h]

/-! ## Claim theorems: rate limiter -/

/-- C1: For every key, under the default configuration (60,000 ms window,
maximum 10), the first 10 calls arriving within a single window all return
`allowed = true`, the 11th call within the same window returns
`allowed = false`, and a call issued after the window elapses starts a new
window with count 1 and returns `allowed = true`. -/
theorem rateLimit_default_window (ip : String) (t0 t' : Nat) (ts : List Nat)
    (hlen : ts.length = 10) (hin : ∀ t ∈ ts, t0 ≤ t ∧ t ≤ t0 + windowMs)
    (hafter : t' > t0 + windowMs) :
    (rateLimitRun emptyRateStore ip (t0 :: ts)).1 = List.replicate 10 true ++ [false]
    ∧ (rateLimit (rateLimitRun emptyRateStore ip (t0 :: ts)).2 ip t').1 = true
    ∧ (rateLimit (rateLimitRun emptyRateStore ip (t0 :: ts)).2 ip t').2 ip
        = some ⟨1, t'⟩ := by
  have hrest := rateLimitRun_single_in ip t0 ts 1 (fun t ht => (hin t ht).2)
  have hrun : rateLimitRun emptyRateStore ip (t0 :: ts)
      = (true :: expectedFlags 1 ts.length, singleStore ip ⟨1 + ts.length, t0⟩) := by
    simp [rateLimitRun, rateLimit_empty, hrest]
  refine ⟨?_, ?_, ?_⟩
  · rw [hrun, hlen]
    show true :: expectedFlags 1 10 = List.replicate 10 true ++ [false]
    decide
  · rw [hrun]
    rw [rateLimit_single_reset ip (1 + ts.length) t0 t' hafter]
  · rw [hrun]
    rw [rateLimit_single_reset ip (1 + ts.length) t0 t' hafter]
    simp [singleStore]

/-- Witness for C1 at key `k`, 11 calls at time 0 and a 12th call at time
60,001. -/
theorem rateLimit_default_window_witness :
    (rateLimitRun emptyRateStore "k" (0 :: List.replicate 10 0)).1
        = List.replicate 10 true ++ [false]
    ∧ (rateLimit (rateLimitRun emptyRateStore "k" (0 :: List.replicate 10 0)).2 "k" 60001).1
        = true
    ∧ (rateLimit (rateLimitRun emptyRateStore "k" (0 :: List.replicate 10 0)).2 "k" 60001).2 "k"
        = some ⟨1, 60001⟩ :=
  rateLimit_default_window "k" 0 60001 (List.replicate 10 0) (by decide)
    (fun t ht => by
      have := List.eq_of_mem_replicate ht
      subst this
      exact ⟨Nat.le_refl 0, by decide⟩)
    (by decide)

/-- C9 as stated is false on the code: the claimed interval is half-open,
so a request at exactly `windowStart + windowMs` should reset the count to 1
and the window start to `now`; the code compares with a strict `>`, so the
call at time 60,000 against a window started at 0 increments to count 2 and
keeps `windowStart = 0`. -/
theorem rateLimit_boundary_cex :
    (rateLimit emptyRateStore "k" 0).2 "k" = some ⟨1, 0⟩
    ∧ (rateLimit ((rateLimit emptyRateStore "k" 0).2) "k" (0 + windowMs)).2 "k" = some ⟨2, 0⟩
    ∧ RateEntry.mk 2 0 ≠ RateEntry.mk 1 (0 + windowMs) := by decide

/-- C9 amended: the count reflects requests within the closed interval
from `windowStart` to `windowStart + windowMs`; a request strictly after
`windowStart + windowMs` resets the count to 1 and `windowStart` to now;
and on every `rateLimit` call the entries of all other keys whose window
start is strictly more than `windowMs` old are evicted. -/
theorem rateLimit_window_reset (store : RateStore) (ip k : String) (c s now : Nat) :
    (store ip = some ⟨c, s⟩ → now ≤ s + windowMs →
      (rateLimit store ip now).2 ip = some ⟨c + 1, s⟩)
    ∧ (store ip = some ⟨c, s⟩ → now > s + windowMs →
      (rateLimit store ip now).1 = true ∧ (rateLimit store ip now).2 ip = some ⟨1, now⟩)
    ∧ (store k = some ⟨c, s⟩ → now > s + windowMs → k ≠ ip →
      (rateLimit store ip now).2 k = none) := by
  refine ⟨?_, ?_, ?_⟩
  · intro hip hin
    have hnot : ¬ (now - s > windowMs) := by omega
    simp [rateLimit, hip, hnot]
  · intro hip hout
    have hgt : now - s > windowMs := by omega
    simp [rateLimit, hip, hgt, rateCap]
  · intro hk hout hne
    have hgt : now - s > windowMs := by omega
    rcases hcl : (match store ip with
        | some e => if now - e.timestamp > windowMs then none else some e
        | none => none : Option RateEntry) with _ | e
    · simp [rateLimit, hcl, hne, hk, hgt]
    · by_cases he : now - e.timestamp > windowMs <;>
        simp [rateLimit, hcl, he, hne, hk, hgt]

/-- Witness for C9 (amended), using the two-key store `c9Store`:
an in-window call increments, an out-of-window call resets, and the stale
other key is evicted. -/
theorem rateLimit_window_reset_witness :
    (rateLimit c9Store "a" 100).2 "a" = some ⟨3, 0⟩
    ∧ (rateLimit c9Store "a" 70000).2 "a" = some ⟨1, 70000⟩
    ∧ (rateLimit c9Store "a" 70000).2 "b" = none :=
  ⟨(rateLimit_window_reset c9Store "a" "b" 2 0 100).1 (by decide) (by decide),
   ((rateLimit_window_reset c9Store "a" "b" 2 0 70000).2.1 (by decide) (by decide)).2,
   (rateLimit_window_reset c9Store "a" "b" 3 1 70000).2.2 (by decide) (by decide) (by decide)⟩

/-! ## Claim theorems: session store -/

/-- C4: For every id, `getSession` never fails and never reports not-found:
when no session exists under the id it inserts and returns a fresh session
with that id, `lastActive` set to now and no analysis; when one exists it
returns that session (and leaves the store unchanged). -/
theorem getSession_lazy_create (α : Type) (m : SessionStore α) (i : String) (now : Nat) :
    (storeGet? m i = none →
      getSession m i now = (⟨i, now, none, none⟩, storeSet m i ⟨i, now, none, none⟩)
      ∧ storeGet? (getSession m i now).2 i = some ⟨i, now, none, none⟩)
    ∧ (∀ s, storeGet? m i = some s → getSession m i now = (s, m)) := by
  constructor
  · intro h
    refine ⟨by simp [getSession, h], ?_⟩
    simp [getSession, h, storeGet?_storeSet_self]
  · intro s h
    simp [getSession, h]

/-- Witness for C4: an unknown id is lazily created; the session stored at
time 5 in `c7Store` is returned as-is. -/
theorem getSession_lazy_create_witness :
    getSession ([] : SessionStore Unit) "unknown-id" 7
        = (⟨"unknown-id", 7, none, none⟩, [("unknown-id", ⟨"unknown-id", 7, none, none⟩)])
    ∧ getSession c7Store "s" 10 = (⟨"s", 5, none, none⟩, c7Store) :=
  ⟨((getSession_lazy_create Unit [] "unknown-id" 7).1 (by decide)).1,
   (getSession_lazy_create Unit c7Store "s" 10).2 ⟨"s", 5, none, none⟩ (by decide)⟩

/-- C7 as stated is false on the code: reading an existing session does not
refresh its `lastActive` timestamp.  In the store holding a session with
`lastActive = 5`, `getSession` at time 10 returns it with `lastActive`
still 5. -/
theorem getSession_read_refresh_cex :
    (getSession c7Store "s" 10).1.lastActive = 5 ∧ (5 : Nat) ≠ 10 := by decide

/-- C7 amended: `updateSession` refreshes `lastActive` to now, and
`getSession` on an absent id creates the session with `lastActive = now`;
but `getSession` on an existing session returns it (and the whole store)
unchanged, its `lastActive` untouched. -/
theorem lastActive_refresh_policy (α : Type) (m : SessionStore α) (i : String) (now : Nat)
    (p : SessionPatch α) (s : UserSession α) :
    (storeGet? m i = some s → getSession m i now = (s, m))
    ∧ (storeGet? m i = none → (getSession m i now).1.lastActive = now)
    ∧ (storeGet? m i = some s →
        storeGet? (updateSession m i p now) i = some (applyPatch s p now)
        ∧ (applyPatch s p now).lastActive = now) := by
  refine ⟨fun h => by simp [getSession, h], fun h => by simp [getSession, h], fun h => ?_⟩
  exact ⟨by simp [updateSession, h, storeGet?_storeSet_self], rfl⟩

/-- Witness for C7 (amended) on `c7Store`. -/
theorem lastActive_refresh_policy_witness :
    getSession c7Store "s" 10 = (⟨"s", 5, none, none⟩, c7Store)
    ∧ (getSession c7Store "absent" 10).1.lastActive = 10
    ∧ (storeGet? (updateSession c7Store "s" ⟨none, none, none, none⟩ 12) "s"
          = some ⟨"s", 12, none, none⟩
        ∧ (12 : Nat) = 12) :=
  ⟨(lastActive_refresh_policy Unit c7Store "s" 10 ⟨none, none, none, none⟩
      ⟨"s", 5, none, none⟩).1 (by decide),
   (lastActive_refresh_policy Unit c7Store "absent" 10 ⟨none, none, none, none⟩
      ⟨"s", 5, none, none⟩).2.1 (by decide),
   (lastActive_refresh_policy Unit c7Store "s" 12 ⟨none, none, none, none⟩
      ⟨"s", 5, none, none⟩).2.2 (by decide)⟩

/-- C8: `updateSession` on an absent id leaves the store entirely
unchanged; on a present id the stored result is the shallow merge
`applyPatch` — `lastActive` refreshed to now, every field not named in the
patch keeping its previous value — while the number of entries and the
bindings of all other keys are unchanged. -/
theorem updateSession_merge_frame (α : Type) (m : SessionStore α) (i : String)
    (p : SessionPatch α) (now : Nat) :
    (storeGet? m i = none → updateSession m i p now = m)
    ∧ (∀ s, storeGet? m i = some s →
        storeGet? (updateSession m i p now) i = some (applyPatch s p now)
        ∧ (applyPatch s p now).lastActive = now
        ∧ (p.id = none → (applyPatch s p now).id = s.id)
        ∧ (p.memeService = none → (applyPatch s p now).memeService = s.memeService)
        ∧ (p.analysis = none → (applyPatch s p now).analysis = s.analysis)
        ∧ (updateSession m i p now).length = m.length
        ∧ (∀ k, k ≠ i → storeGet? (updateSession m i p now) k = storeGet? m k)) := by
  constructor
  · intro h
    simp [updateSession, h]
  · intro s h
    refine ⟨by simp [updateSession, h, storeGet?_storeSet_self], rfl,
      fun hid => by simp [applyPatch, hid],
      fun hms => by simp [applyPatch, hms],
      fun han => by simp [applyPatch, han],
      ?_, fun k hk => ?_⟩
    · simp [updateSession, h]
      exact length_storeSet_of_get m i s _ h
    · simp [updateSession, h]
      exact storeGet?_storeSet_other m i k _ hk

/-- Witness for C8 on `c7Store`: a patch naming only `analysis`. -/
theorem updateSession_merge_frame_witness :
    updateSession c7Store "absent" ⟨none, none, none, some (some ())⟩ 9 = c7Store
    ∧ storeGet? (updateSession c7Store "s" ⟨none, none, none, some (some ())⟩ 9) "s"
        = some ⟨"s", 9, none, some ()⟩
    ∧ (updateSession c7Store "s" ⟨none, none, none, some (some ())⟩ 9).length = c7Store.length
    ∧ storeGet? (updateSession c7Store "s" ⟨none, none, none, some (some ())⟩ 9) "t"
        = storeGet? c7Store "t" :=
  ⟨(updateSession_merge_frame Unit c7Store "absent" ⟨none, none, none, some (some ())⟩ 9).1
      (by decide),
   ((updateSession_merge_frame Unit c7Store "s" ⟨none, none, none, some (some ())⟩ 9).2
      ⟨"s", 5, none, none⟩ (by decide)).1,
   ((updateSession_merge_frame Unit c7Store "s" ⟨none, none, none, some (some ())⟩ 9).2
      ⟨"s", 5, none, none⟩ (by decide)).2.2.2.2.2.1,
   ((updateSession_merge_frame Unit c7Store "s" ⟨none, none, none, some (some ())⟩ 9).2
      ⟨"s", 5, none, none⟩ (by decide)).2.2.2.2.2.2 "t" (by decide)⟩

/-- C10: `getSession` always returns a session object, so the route's
falsy-session check after it can never fire: the image-analysis endpoint
never answers 401 invalid-session, and a non-empty session id that was
never created still reaches the later stages (with file, name and provider
content present it is fully processed). -/
theorem postAnalyze_no_invalid_session (α : Type) (m : SessionStore α) (sid : Option String)
    (hasFile : Bool) (memeName : String) (pa : Option α) (now : Nat) :
    (postAnalyze m sid hasFile memeName pa now).1 ≠ PostResponse.invalidSession
    ∧ (∀ s a, sid = some s → s ≠ "" → hasFile = true → memeName ≠ "" → pa = some a →
        (postAnalyze m sid hasFile memeName pa now).1 = PostResponse.analyzed a) := by
  constructor
  · cases sid with
    | none => simp [postAnalyze]
    | some s =>
      by_cases hs : s = ""
      · simp [postAnalyze, hs]
      · by_cases hfn : !hasFile || memeName = ""
        · simp [postAnalyze, hs, hfn]
        · cases pa with
          | none => simp [postAnalyze, hs, hfn]
          | some a => simp [postAnalyze, hs, hfn]
  · intro s a hsid hs hf hn hpa
    subst hsid hf hpa
    simp [postAnalyze, hs, hn]

/-- Witness for C10: a never-created non-empty session id is accepted and
fully processed. -/
theorem postAnalyze_no_invalid_session_witness :
    (postAnalyze ([] : SessionStore Unit) (some "never-created") true "pepe" (some ()) 3).1
        ≠ PostResponse.invalidSession
    ∧ (postAnalyze ([] : SessionStore Unit) (some "never-created") true "pepe" (some ()) 3).1
        = PostResponse.analyzed () :=
  ⟨(postAnalyze_no_invalid_session Unit [] (some "never-created") true "pepe" (some ()) 3).1,
   (postAnalyze_no_invalid_session Unit [] (some "never-created") true "pepe" (some ()) 3).2
      "never-created" () rfl (by decide) rfl (by decide) rfl⟩

/-! ## Lemmas: streaming parser -/

theorem extractLines_no_newline : ∀ (l : List Char), '\n' ∉ l → extractLines l = ([], l)
  | [], _ => rfl
  | c :: cs, h => by
    have hc : ¬ (c = '\n') := fun hh => h (hh ▸ List.mem_cons_self c cs)
    have ih := extractLines_no_newline cs (fun hm => h (List.mem_cons_of_mem c hm))
    simp [extractLines, hc, ih, consLine]

theorem newline_not_mem_residue : ∀ (l : List Char), '\n' ∉ (extractLines l).2
  | [] => by simp [extractLines]
  | c :: cs => by
    have ih := newline_not_mem_residue cs
    by_cases hc : c = '\n'
    · simpa [extractLines, hc] using ih
    · rcases hE : extractLines cs with ⟨ls, r⟩
      rw [hE] at ih
      cases ls with
      | nil =>
        simp [extractLines, hc, hE, consLine]
        exact ⟨fun hh => hc hh.symm, ih⟩
      | cons l ls' =>
        simpa [extractLines, hc, hE, consLine] using ih

theorem extractLines_append : ∀ (x y : List Char),
    extractLines (x ++ y)
      = ((extractLines x).1 ++ (extractLines ((extractLines x).2 ++ y)).1,
         (extractLines ((extractLines x).2 ++ y)).2)
  | [], y => by simp [extractLines]
  | c :: x, y => by
    have ih := extractLines_append x y
    by_cases hc : c = '\n'
    · subst hc
      simp [extractLines, ih]
    · rcases hx : extractLines x with ⟨A, r⟩
      rw [hx] at ih
      rcases hry : extractLines (r ++ y) with ⟨B1, B2⟩
      rw [hry] at ih
      cases A with
      | nil =>
        cases B1 with
        | nil => simp [extractLines, hc, hx, hry, ih, consLine]
        | cons b bs => simp [extractLines, hc, hx, hry, ih, consLine]
      | cons a as => simp [extractLines, hc, hx, hry, ih, consLine]

theorem foldl_feedChunk (mn iu : List Char) :
    ∀ (chunks : List (List Char)) (buf : List Char) (acc : List Turn), '\n' ∉ buf →
      List.foldl (feedChunk mn iu) (buf, acc) chunks
        = ((extractLines (buf ++ chunks.flatten)).2,
           acc ++ (extractLines (buf ++ chunks.flatten)).1.filterMap (parseLine mn iu))
  | [], buf, acc, h => by simp [extractLines_no_newline buf h]
  | c :: chunks, buf, acc, h => by
    have hres : '\n' ∉ (extractLines (buf ++ c)).2 := newline_not_mem_residue _
    have ih := foldl_feedChunk mn iu chunks (extractLines (buf ++ c)).2
      (acc ++ (extractLines (buf ++ c)).1.filterMap (parseLine mn iu)) hres
    have hflat : (c :: chunks).flatten = c ++ chunks.flatten := by simp
    calc List.foldl (feedChunk mn iu) (buf, acc) (c :: chunks)
        = List.foldl (feedChunk mn iu) (feedChunk mn iu (buf, acc) c) chunks := by
          simp [List.foldl]
      _ = ((extractLines ((extractLines (buf ++ c)).2 ++ chunks.flatten)).2,
            (acc ++ (extractLines (buf ++ c)).1.filterMap (parseLine mn iu))
              ++ (extractLines ((extractLines (buf ++ c)).2 ++ chunks.flatten)).1.filterMap
                  (parseLine mn iu)) := by
          rw [← ih]; rfl
      _ = ((extractLines (buf ++ (c :: chunks).flatten)).2,
            acc ++ (extractLines (buf ++ (c :: chunks).flatten)).1.filterMap (parseLine mn iu)) := by
          rw [hflat, ← List.append_assoc buf c chunks.flatten,
            extractLines_append (buf ++ c) chunks.flatten]
          simp [List.filterMap_append, List.append_assoc]

theorem runStream_eq_extract (mn iu : List Char) (chunks : List (List Char)) :
    runStream mn iu chunks = (extractLines chunks.flatten).1.filterMap (parseLine mn iu) := by
  unfold runStream
  rw [foldl_feedChunk mn iu chunks [] [] (by simp)]
  simp

theorem utf8Decode_append : ∀ (a b : List Nat), wellFormedUtf8 a = true →
    utf8Decode (a ++ b) = utf8Decode a ++ utf8Decode b
  | [], _, _ => by simp [utf8Decode]
  | [x], b, h => by
    have hx : x < 0x80 := by simpa [wellFormedUtf8] using h
    cases b with
    | nil => simp [utf8Decode]
    | cons y bs => simp [utf8Decode, hx]
  | x :: x2 :: a, b, h => by
    by_cases hx : x < 0x80
    · have ha : wellFormedUtf8 (x2 :: a) = true := by simpa [wellFormedUtf8, hx] using h
      have ih := utf8Decode_append (x2 :: a) b ha
      rw [List.cons_append] at ih
      simp [utf8Decode, hx, ih]
    · have hx2 : 0xC2 ≤ x ∧ x ≤ 0xDF := by
        by_contra hcon
        simp [wellFormedUtf8, hx, hcon] at h
      have hc : isCont x2 = true ∧ wellFormedUtf8 a = true := by
        simpa [wellFormedUtf8, hx, hx2] using h
      simp [utf8Decode, hx, hx2, hc.1, utf8Decode_append a b hc.2]

theorem utf8Decode_flatten : ∀ (cs : List (List Nat)), (∀ c ∈ cs, wellFormedUtf8 c = true) →
    utf8Decode cs.flatten = (cs.map utf8Decode).flatten
  | [], _ => by simp [utf8Decode]
  | c :: cs, h => by
    have h1 : wellFormedUtf8 c = true := h c (List.mem_cons_self c cs)
    have ih := utf8Decode_flatten cs (fun x hx => h x (List.mem_cons_of_mem c hx))
    simp [utf8Decode_append c cs.flatten h1, ih]

/-! ## Claim theorems: streaming parser and orchestrator -/

/-- C2 as stated is false on the code: the turns do not depend only on the
concatenation of the byte chunks, because each chunk is decoded by
`decoder.decode(value)` without `stream: true`.  The line
`data: \x7b"message":"Hacky: é"\x7d` (é = `0xC3 0xA9`) fed whole yields the turn
message `é`, but split between the two bytes of é each half decodes its
dangling byte to U+FFFD, yielding a different turn. -/
theorem stream_turns_chunk_dependence_cex :
    c2ChunksWhole.flatten = c2ChunksSplit.flatten
    ∧ runStreamBytes "Pepe".data "img".data c2ChunksWhole
        ≠ runStreamBytes "Pepe".data "img".data c2ChunksSplit := by decide

/-- C2 amended: provided no chunk boundary splits a multibyte UTF-8
sequence (every chunk well-formed, which holds for ASCII streams and for
zero-length chunks), the emitted turns depend only on the concatenation of
the chunks; in particular the quoted ASCII split of the Hacky line emits
exactly one turn with speaker `Hacky` and message `gm`. -/
theorem stream_turns_chunk_invariant (mn iu : List Char) (cs1 cs2 : List (List Nat))
    (h1 : ∀ c ∈ cs1, wellFormedUtf8 c = true) (h2 : ∀ c ∈ cs2, wellFormedUtf8 c = true)
    (hj : cs1.flatten = cs2.flatten) :
    runStreamBytes mn iu cs1 = runStreamBytes mn iu cs2
    ∧ runStreamBytes mn iu
        [asciiBytes "data: \x7b\"mess", asciiBytes "age\":\"Hacky: gm\"\x7d\n"]
      = [⟨"Hacky".data, "gm".data, "/images/hacky.jpeg".data, true⟩] := by
  constructor
  · unfold runStreamBytes
    rw [runStream_eq_extract, runStream_eq_extract,
      ← utf8Decode_flatten cs1 h1, ← utf8Decode_flatten cs2 h2, hj]
  · rfl

/-- Witness for C2 (amended): the quoted two-chunk split against the whole
line, all chunks ASCII. -/
theorem stream_turns_chunk_invariant_witness :
    runStreamBytes "Pepe".data "img".data
        [asciiBytes "data: \x7b\"mess", asciiBytes "age\":\"Hacky: gm\"\x7d\n"]
      = runStreamBytes "Pepe".data "img".data
        [asciiBytes "data: \x7b\"message\":\"Hacky: gm\"\x7d\n"]
    ∧ runStreamBytes "Pepe".data "img".data
        [asciiBytes "data: \x7b\"mess", asciiBytes "age\":\"Hacky: gm\"\x7d\n"]
      = [⟨"Hacky".data, "gm".data, "/images/hacky.jpeg".data, true⟩] :=
  ⟨(stream_turns_chunk_invariant "Pepe".data "img".data
      [asciiBytes "data: \x7b\"mess", asciiBytes "age\":\"Hacky: gm\"\x7d\n"]
      [asciiBytes "data: \x7b\"message\":\"Hacky: gm\"\x7d\n"]
      (by decide) (by decide) (by decide)).1,
   (stream_turns_chunk_invariant "Pepe".data "img".data
      [asciiBytes "data: \x7b\"mess", asciiBytes "age\":\"Hacky: gm\"\x7d\n"]
      [asciiBytes "data: \x7b\"message\":\"Hacky: gm\"\x7d\n"]
      (by decide) (by decide) (by decide)).2⟩

/-- C3: `generateConversation` on a state whose character analysis is
absent fails with the precondition error `Must analyze image first` and
issues no provider call (the call count stays zero). -/
theorem generateConversation_precondition (st : MemeServiceState) (chunks : List (List Nat))
    (h : st.descripcionPersonaje = none) :
    (generateConversation st chunks).1 = Except.error "Must analyze image first".data
    ∧ (generateConversation st chunks).2 = 0 := by
  constructor <;> simp [generateConversation, h]

/-- Witness for C3 at the freshly constructed service state. -/
theorem generateConversation_precondition_witness :
    (generateConversation ⟨none, [], [], []⟩ []).1
        = Except.error "Must analyze image first".data
    ∧ (generateConversation ⟨none, [], [], []⟩ []).2 = 0 :=
  generateConversation_precondition ⟨none, [], [], []⟩ [] rfl

/-- C5: a parsed message starting with the literal marker `Hacky:` is
attributed to `Hacky` with the 6-character marker stripped and trimmed (the
marker check coming first); any other message is attributed to the active
character with its first `name.length + 1` characters stripped and trimmed;
for persona `Pepe`, the quoted line yields speaker `Pepe` and message
`to the moon`. -/
theorem speaker_attribution (mn iu msg : List Char) :
    (listStartsWith "Hacky:".data msg = true →
      mkTurn mn iu msg
        = ⟨"Hacky".data, trimChars (msg.drop 6), "/images/hacky.jpeg".data, true⟩)
    ∧ (listStartsWith "Hacky:".data msg = false →
      mkTurn mn iu msg = ⟨mn, trimChars (msg.drop (mn.length + 1)), iu, false⟩)
    ∧ parseLine "Pepe".data iu "data: \x7b\"message\":\"Pepe: to the moon\"\x7d".data
        = some ⟨"Pepe".data, "to the moon".data, iu, false⟩ := by
  refine ⟨fun h => ?_, fun h => ?_, rfl⟩
  · simp [mkTurn, h]
  · simp [mkTurn, h]

/-- Witness for C5: both attribution branches at concrete messages, and the
quoted `Pepe` line. -/
theorem speaker_attribution_witness :
    mkTurn "Pepe".data "img".data "Hacky: gm".data
        = ⟨"Hacky".data, "gm".data, "/images/hacky.jpeg".data, true⟩
    ∧ mkTurn "Pepe".data "img".data "Pepe: hi".data
        = ⟨"Pepe".data, "hi".data, "img".data, false⟩
    ∧ parseLine "Pepe".data "img".data "data: \x7b\"message\":\"Pepe: to the moon\"\x7d".data
        = some ⟨"Pepe".data, "to the moon".data, "img".data, false⟩ :=
  ⟨(speaker_attribution "Pepe".data "img".data "Hacky: gm".data).1 (by decide),
   (speaker_attribution "Pepe".data "img".data "Pepe: hi".data).2.1 (by decide),
   (speaker_attribution "Pepe".data "img".data "anything".data).2.2⟩

/-- C6: a `data: `-prefixed line whose payload fails to parse is dropped
without raising and without terminating the stream: `data: \x7bnot json`
parses to no turn, dropping any such line leaves the turns of the remaining
lines untouched, and a stream carrying the bad line followed by a valid one
still emits the valid line's turn. -/
theorem invalid_line_dropped (mn iu bad : List Char) (ls1 ls2 : List (List Char)) :
    parseLine mn iu "data: \x7bnot json".data = none
    ∧ (parseLine mn iu bad = none →
        (ls1 ++ bad :: ls2).filterMap (parseLine mn iu)
          = (ls1 ++ ls2).filterMap (parseLine mn iu))
    ∧ runStreamBytes mn iu
        [asciiBytes "data: \x7bnot json\ndata: \x7b\"message\":\"Hacky: hi\"\x7d\n"]
      = [⟨"Hacky".data, "hi".data, "/images/hacky.jpeg".data, true⟩] := by
  refine ⟨rfl, fun h => ?_, rfl⟩
  simp [List.filterMap_append, List.filterMap_cons, h]

/-- Witness for C6: dropping a prefix-less line between two streams. -/
theorem invalid_line_dropped_witness :
    parseLine "Pepe".data "img".data "data: \x7bnot json".data = none
    ∧ (["data: \x7b\"message\":\"Hacky: a\"\x7d".data] ++ "hello".data
          :: ["data: \x7b\"message\":\"Hacky: b\"\x7d".data]).filterMap
            (parseLine "Pepe".data "img".data)
        = (["data: \x7b\"message\":\"Hacky: a\"\x7d".data]
            ++ ["data: \x7b\"message\":\"Hacky: b\"\x7d".data]).filterMap
            (parseLine "Pepe".data "img".data)
    ∧ runStreamBytes "Pepe".data "img".data
        [asciiBytes "data: \x7bnot json\ndata: \x7b\"message\":\"Hacky: hi\"\x7d\n"]
      = [⟨"Hacky".data, "hi".data, "/images/hacky.jpeg".data, true⟩] :=
  ⟨(invalid_line_dropped "Pepe".data "img".data "hello".data [] []).1,
   (invalid_line_dropped "Pepe".data "img".data "hello".data
      ["data: \x7b\"message\":\"Hacky: a\"\x7d".data]
      ["data: \x7b\"message\":\"Hacky: b\"\x7d".data]).2.1 (by decide),
   (invalid_line_dropped "Pepe".data "img".data "hello".data [] []).2.2⟩

end MemOS
